import Mathlib

/-!
Verification development for the ftb-tool repository.

The definitions below are a shallow embedding of the bounded-concurrency
network request engine (src/src/helpers/logging.ts, net module segments),
the file-system helpers (src/src/helpers/fs.ts) and the version-download
command (src/src/commands/version/download.ts). Stateful TypeScript is
embedded as explicit state passing; the single-threaded event loop is
embedded as a step relation on an explicit state type, with one event per
synchronous block of the source. Fallible operations return Except.
-/

set_option linter.unusedVariables false

namespace FTB

/-! ## Admission gate state

Mirrors the module-level mutable state of the net module:
`requestQueue`, `requestsInFlight`, `waitingQueue`, `requestLimit`
(logging.ts lines 584-615). Requests are identified by a caller-chosen
request id; the uuid assigned at dispatch time is modelled by the
`nextUUID` counter (the `uuid` package returns fresh values, which the
counter models). Waiters are identified by `nextWID`. The lists
`notifiedOrder` and `timedOut` record, in order, which waiters were
resolved by the gate and which were failed by their timeout timer; they
model the observable settlement of the waiter promises. `armedTimers`
holds the waiter ids whose `setTimeout` timer has been armed and has not
fired yet. -/

structure Waiter where
  wid : Nat
  settled : Bool
deriving Repr, DecidableEq

structure NetState where
  requestQueue : List Nat
  requestsInFlight : List (Nat × Nat)
  waiters : List Waiter
  waitingQueue : List Nat
  requestLimit : Int
  nextUUID : Nat
  nextWID : Nat
  notifiedOrder : List Nat
  timedOut : List Nat
  armedTimers : List Nat
deriving Repr, DecidableEq

/-- Default of `DEFAULT_NET_REQUEST_LIMIT` (unnamed/part_003 line 94). -/
def DEFAULT_NET_REQUEST_LIMIT : Int := 3

def initNetState (limit : Int) : NetState :=
  { requestQueue := []
    requestsInFlight := []
    waiters := []
    waitingQueue := []
    requestLimit := limit
    nextUUID := 0
    nextWID := 0
    notifiedOrder := []
    timedOut := []
    armedTimers := [] }

/-- Read the `settled` flag of the waiter object with id `w` (false when no
such waiter exists). -/
def waiterSettled (s : NetState) (w : Nat) : Bool :=
  ((s.waiters.find? (fun x => x.wid == w)).map Waiter.settled).getD false

def setSettled (ws : List Waiter) (w : Nat) : List Waiter :=
  ws.map (fun x => if x.wid == w then { x with settled := true } else x)

/-- The `resolve` closure of a waiter item (logging.ts lines 1717-1723):
if the settled flag is set, do nothing; otherwise set it and resolve the
promise, which we record by appending the waiter id to `notifiedOrder`. -/
def resolveWaiter (s : NetState) (w : Nat) : NetState :=
  if waiterSettled s w then s
  else { s with waiters := setSettled s.waiters w
                notifiedOrder := s.notifiedOrder ++ [w] }

/-- The `fail` closure of a waiter item (logging.ts lines 1724-1730):
if the settled flag is set, do nothing; otherwise set it and reject the
promise with the timeout error, recorded by appending to `timedOut`. -/
def failWaiter (s : NetState) (w : Nat) : NetState :=
  if waiterSettled s w then s
  else { s with waiters := setSettled s.waiters w
                timedOut := s.timedOut ++ [w] }

/-- The for loop of `pumpQueue` (logging.ts lines 1667-1698). `i` is the
loop counter, `remaining` the remaining request capacity computed once on
entry. Each iteration shifts the queue head, assigns it the fresh uuid,
pushes it to the in-flight list and dispatches it (settlement is a later
event, see `settleRequest`); it then shifts the waiting queue: when that
returns undefined the function returns, otherwise the shifted waiter is
resolved and the loop continues. The `fuel` argument bounds the number of
iterations for structural recursion; every iteration consumes one queued
element, so the queue length at entry (which `pumpQueue` passes) is an
upper bound and the fuel never runs out before the loop guard fails. -/
def pumpLoop : Nat → NetState → Nat → Int → NetState
  | 0, s, _, _ => s
  | fuel + 1, s, i, remaining =>
    if (i : Int) < remaining ∧ i < s.requestQueue.length then
      match s.requestQueue, s.waitingQueue with
      | [], _ => s
      | r :: rest, [] =>
        { s with requestQueue := rest
                 requestsInFlight := s.requestsInFlight ++ [(s.nextUUID, r)]
                 nextUUID := s.nextUUID + 1 }
      | r :: rest, w :: ws =>
        pumpLoop fuel
          (resolveWaiter
            { s with requestQueue := rest
                     requestsInFlight := s.requestsInFlight ++ [(s.nextUUID, r)]
                     nextUUID := s.nextUUID + 1
                     waitingQueue := ws } w)
          (i + 1) remaining
    else s

/-- Embedding of `pumpQueue` (logging.ts lines 1662-1699): compute the remaining
capacity `requestLimit - requestsInFlight.length`; if none, return;
otherwise run the dispatch loop. -/
def pumpQueue (s : NetState) : NetState :=
  if s.requestLimit - (s.requestsInFlight.length : Int) ≤ 0 then s
  else pumpLoop s.requestQueue.length s 0 (s.requestLimit - (s.requestsInFlight.length : Int))

/-- Embedding of `makeRequest` (logging.ts lines 727-743 and 1269-1298): push the queued
request to the tail of the queue and pump. -/
def makeRequest (s : NetState) (rid : Nat) : NetState :=
  pumpQueue { s with requestQueue := s.requestQueue ++ [rid] }

/-- The `.finally` callback of a dispatched request (logging.ts lines
1683-1691): remove the first in-flight entry carrying the uuid, then pump
again. -/
def settleRequest (s : NetState) (uuid : Nat) : NetState :=
  pumpQueue { s with requestsInFlight := s.requestsInFlight.eraseP (fun p => p.1 == uuid) }

/-- A JavaScript number as far as the timeout logic observes it:
`isFinite(timeout)` and `timeout > 0` are the only reads. -/
inductive JSNumber where
  | finite (val : Int)
  | posInf
  | negInf
  | nan
deriving Repr, DecidableEq

def JSNumber.isFinite : JSNumber → Bool
  | .finite _ => true
  | _ => false

def JSNumber.gtZero : JSNumber → Bool
  | .finite v => decide (0 < v)
  | .posInf => true
  | .negInf => false
  | .nan => false

/-- The condition under which `waitUntilQueueHasSpace` arms a timeout
timer: `isFinite(timeout) && timeout > 0` (logging.ts line 1733). -/
def armsTimer (t : JSNumber) : Bool := t.isFinite && t.gtZero

/-- Embedding of `waitUntilQueueHasSpace` (logging.ts lines 1701-1744), executed as one
synchronous block. Returns the new state together with the id of the
registered waiter, or `none` when the promise settled without a waiter
being registered. The capacity test appears twice in the source (before
and inside the promise executor); the executor runs synchronously, so both
reads see the same state and the second branch can never disagree with the
first. When a waiter is registered, a timer is armed exactly for a
positive finite timeout, and `pumpQueue` is triggered. -/
def waitUntilQueueHasSpace (s : NetState) (timeout : JSNumber) : NetState × Option Nat :=
  if 0 < s.requestLimit - (s.requestsInFlight.length : Int) then (s, none)
  else
    if 0 < s.requestLimit - (s.requestsInFlight.length : Int) then (s, none)
    else
      (pumpQueue
        { s with waiters := s.waiters ++ [{ wid := s.nextWID, settled := false }]
                 waitingQueue := s.waitingQueue ++ [s.nextWID]
                 nextWID := s.nextWID + 1
                 armedTimers :=
                   if armsTimer timeout then s.armedTimers ++ [s.nextWID] else s.armedTimers },
       some s.nextWID)

/-- The `setTimeout` callback (logging.ts lines 1734-1740) firing for the
waiter `w`: only armed timers can fire, the timer is disarmed, and the
waiter item is failed with the timeout error. -/
def timerFire (s : NetState) (w : Nat) : NetState :=
  if w ∈ s.armedTimers then
    failWaiter { s with armedTimers := s.armedTimers.erase w } w
  else s

/-- One synchronous block of the event loop touching the gate. -/
inductive NetEvent where
  | enqueue (rid : Nat)
  | settle (uuid : Nat)
  | wait (timeout : JSNumber)
  | timer (wid : Nat)
deriving Repr, DecidableEq

def netStep (s : NetState) : NetEvent → NetState
  | .enqueue rid => makeRequest s rid
  | .settle uuid => settleRequest s uuid
  | .wait t => (waitUntilQueueHasSpace s t).1
  | .timer w => timerFire s w

def netRun (s : NetState) (es : List NetEvent) : NetState :=
  es.foldl netStep s

/-! ## Basic facts about the pump loop -/

theorem resolveWaiter_requestLimit (s : NetState) (w : Nat) :
    (resolveWaiter s w).requestLimit = s.requestLimit := by
  unfold resolveWaiter; split <;> rfl

theorem resolveWaiter_requestsInFlight (s : NetState) (w : Nat) :
    (resolveWaiter s w).requestsInFlight = s.requestsInFlight := by
  unfold resolveWaiter; split <;> rfl

theorem resolveWaiter_requestQueue (s : NetState) (w : Nat) :
    (resolveWaiter s w).requestQueue = s.requestQueue := by
  unfold resolveWaiter; split <;> rfl

theorem resolveWaiter_nextUUID (s : NetState) (w : Nat) :
    (resolveWaiter s w).nextUUID = s.nextUUID := by
  unfold resolveWaiter; split <;> rfl

theorem pumpLoop_requestLimit (fuel : Nat) :
    ∀ (s : NetState) (i : Nat) (remaining : Int),
      (pumpLoop fuel s i remaining).requestLimit = s.requestLimit := by
  induction fuel with
  | zero => intro s i remaining; rfl
  | succ fuel ih =>
    intro s i remaining
    obtain ⟨q, fl, wa, wq, lim, nu, nw, no, tod, tim⟩ := s
    unfold pumpLoop
    cases q with
    | nil => split <;> rfl
    | cons r rest =>
      cases wq with
      | nil => split <;> rfl
      | cons w ws =>
        split
        · rw [ih, resolveWaiter_requestLimit]
        · rfl

theorem pumpQueue_requestLimit (s : NetState) :
    (pumpQueue s).requestLimit = s.requestLimit := by
  unfold pumpQueue
  split
  · rfl
  · exact pumpLoop_requestLimit _ _ _ _

/-- Core capacity lemma for the dispatch loop: if the in-flight count plus
the capacity still to be consumed is bounded by the limit, the loop never
pushes the in-flight count past the limit. -/
theorem pumpLoop_inflight_le (fuel : Nat) :
    ∀ (s : NetState) (i : Nat) (remaining : Int),
      (s.requestsInFlight.length : Int) + remaining ≤ s.requestLimit + i →
      (i : Int) ≤ remaining →
      ((pumpLoop fuel s i remaining).requestsInFlight.length : Int) ≤ s.requestLimit := by
  induction fuel with
  | zero => intro s i remaining h hi; simp only [pumpLoop]; omega
  | succ fuel ih =>
    intro s i remaining h hi
    obtain ⟨q, fl, wa, wq, lim, nu, nw, no, tod, tim⟩ := s
    simp only at h hi ⊢
    unfold pumpLoop
    cases q with
    | nil => split <;> (simp only; omega)
    | cons r rest =>
      cases wq with
      | nil =>
        split
        · simp only [List.length_append, List.length_cons, List.length_nil]
          omega
        · simp only; omega
      | cons w ws =>
        split
        · rename_i hguard
          have key := ih (resolveWaiter
            ⟨rest, fl ++ [(nu, r)], wa, ws, lim, nu + 1, nw, no, tod, tim⟩ w) (i + 1) remaining
          simp only [resolveWaiter_requestsInFlight, resolveWaiter_requestLimit,
            List.length_append, List.length_cons, List.length_nil] at key
          simp only [List.length_cons] at hguard
          exact key (by omega) (by omega)
        · simp only; omega

theorem pumpQueue_inflight_le (s : NetState)
    (h : (s.requestsInFlight.length : Int) ≤ s.requestLimit) :
    ((pumpQueue s).requestsInFlight.length : Int) ≤ s.requestLimit := by
  unfold pumpQueue
  split
  · exact h
  · rename_i hpos
    exact pumpLoop_inflight_le s.requestQueue.length s 0 _ (by omega) (by omega)

theorem pumpQueue_register_limit_aux (s : NetState) (ws : List Waiter)
    (wq at2 : List Nat) (nw : Nat) :
    (pumpQueue
      { s with waiters := ws, waitingQueue := wq, nextWID := nw, armedTimers := at2 }).requestLimit
      = s.requestLimit := by
  simpa using pumpQueue_requestLimit
    { s with waiters := ws, waitingQueue := wq, nextWID := nw, armedTimers := at2 }

theorem pumpQueue_register_inflight_aux (s : NetState) (ws : List Waiter)
    (wq at2 : List Nat) (nw : Nat)
    (h : (s.requestsInFlight.length : Int) ≤ s.requestLimit) :
    ((pumpQueue
      { s with waiters := ws, waitingQueue := wq, nextWID := nw,
               armedTimers := at2 }).requestsInFlight.length : Int) ≤ s.requestLimit := by
  have := pumpQueue_inflight_le
    { s with waiters := ws, waitingQueue := wq, nextWID := nw, armedTimers := at2 }
    (by simpa using h)
  simpa using this

theorem wait_fst_requestLimit (s : NetState) (t : JSNumber) :
    ((waitUntilQueueHasSpace s t).1).requestLimit = s.requestLimit := by
  unfold waitUntilQueueHasSpace
  split
  · rfl
  · split <;> exact pumpQueue_register_limit_aux s _ _ _ _

theorem wait_fst_inflight_le (s : NetState) (t : JSNumber)
    (h : (s.requestsInFlight.length : Int) ≤ s.requestLimit) :
    (((waitUntilQueueHasSpace s t).1).requestsInFlight.length : Int) ≤ s.requestLimit := by
  unfold waitUntilQueueHasSpace
  split
  · exact h
  · split <;> exact pumpQueue_register_inflight_aux s _ _ _ _ h

/-- The gate invariant needed for the capacity bound: the limit is the
configured one and the in-flight count respects it. -/
def GateInv (limit : Int) (s : NetState) : Prop :=
  s.requestLimit = limit ∧ (s.requestsInFlight.length : Int) ≤ limit

theorem length_eraseP_le {α : Type} (p : α → Bool) (l : List α) :
    (l.eraseP p).length ≤ l.length := by
  induction l with
  | nil => simp [List.eraseP]
  | cons a l ih =>
    by_cases h : p a
    · simp [List.eraseP_cons, h]
    · simp only [List.eraseP_cons, h]
      simpa using ih

theorem netStep_gateInv (limit : Int) (s : NetState) (e : NetEvent)
    (h : GateInv limit s) : GateInv limit (netStep s e) := by
  obtain ⟨hlim, hlen⟩ := h
  cases e with
  | enqueue rid =>
    refine ⟨?_, ?_⟩
    · simpa [netStep, makeRequest, pumpQueue_requestLimit] using hlim
    · have := pumpQueue_inflight_le { s with requestQueue := s.requestQueue ++ [rid] }
        (by simpa using hlen.trans_eq hlim.symm)
      simpa [netStep, makeRequest, hlim] using this
  | settle uuid =>
    refine ⟨?_, ?_⟩
    · simpa [netStep, settleRequest, pumpQueue_requestLimit] using hlim
    · have hle : ((s.requestsInFlight.eraseP (fun p => p.1 == uuid)).length : Int) ≤ limit := by
        have := length_eraseP_le (fun p => p.1 == uuid) s.requestsInFlight
        omega
      have := pumpQueue_inflight_le
        { s with requestsInFlight := s.requestsInFlight.eraseP (fun p => p.1 == uuid) }
        (by simpa [hlim] using hle)
      simpa [netStep, settleRequest, hlim] using this
  | wait t =>
    refine ⟨?_, ?_⟩
    · simpa [netStep, wait_fst_requestLimit] using hlim
    · have := wait_fst_inflight_le s t (hlen.trans_eq hlim.symm)
      rw [hlim] at this
      simpa [netStep] using this
  | timer w =>
    simp only [netStep, timerFire]
    split
    · unfold failWaiter
      split
      · exact ⟨hlim, hlen⟩
      · exact ⟨hlim, hlen⟩
    · exact ⟨hlim, hlen⟩

theorem netRun_gateInv (limit : Int) (es : List NetEvent) :
    ∀ (s : NetState), GateInv limit s → GateInv limit (netRun s es) := by
  induction es with
  | nil => intro s h; exact h
  | cons e es ih =>
    intro s h
    exact ih (netStep s e) (netStep_gateInv limit s e h)

/-- C1: for every sequence of gate events starting from the initial state
with a configured limit (default 3), the size of the in-flight request set
never exceeds the limit. Every point of every execution is covered because
the event list is arbitrary (every prefix of a longer execution is itself
an execution). -/
theorem capacity_bound_invariant (limit : Nat) (es : List NetEvent) :
    ((netRun (initNetState limit) es).requestsInFlight.length : Int) ≤ (limit : Int) :=
  (netRun_gateInv (limit : Int) es (initNetState limit) ⟨rfl, by simp [initNetState]⟩).2

/-! ## The pump pass, as the code actually runs it -/

/-- The dispatch loop only ever appends to the notification trace. -/
theorem pumpLoop_notified_extends (fuel : Nat) :
    ∀ (s : NetState) (i : Nat) (remaining : Int),
      ∃ t2, (pumpLoop fuel s i remaining).notifiedOrder = s.notifiedOrder ++ t2 := by
  induction fuel with
  | zero => intro s i remaining; exact ⟨[], by simp [pumpLoop]⟩
  | succ fuel ih =>
    intro s i remaining
    obtain ⟨q, fl, wa, wq, lim, nu, nw, no, tod, tim⟩ := s
    unfold pumpLoop
    cases q with
    | nil => exact ⟨[], by split <;> simp⟩
    | cons r rest =>
      cases wq with
      | nil => refine ⟨[], ?_⟩; split <;> simp
      | cons w ws =>
        split
        · obtain ⟨t3, h3⟩ := ih (resolveWaiter
            ⟨rest, fl ++ [(nu, r)], wa, ws, lim, nu + 1, nw, no, tod, tim⟩ w) (i + 1) remaining
          cases hsettled : waiterSettled
              ⟨rest, fl ++ [(nu, r)], wa, ws, lim, nu + 1, nw, no, tod, tim⟩ w with
          | true =>
            simp only [resolveWaiter, hsettled, if_true] at h3 ⊢
            exact ⟨t3, by simpa using h3⟩
          | false =>
            simp only [resolveWaiter, hsettled, Bool.false_eq_true, if_false] at h3 ⊢
            refine ⟨w :: t3, ?_⟩
            try simp only at h3 ⊢
            rw [h3]
            simp
        · exact ⟨[], by simp⟩

/-- C2 (amended): a pump pass is a no-op without remaining capacity; with
remaining capacity and a non-empty queue it dequeues the head, assigns the
fresh uuid and adds it to the in-flight set, but when the waiter registry
is empty the pass returns right after this first dispatch, even though
capacity and queued requests may remain; when a waiter is pending, the
front waiter is notified after the dispatch and the pass continues. -/
theorem pumpQueue_pass_amended (s : NetState) :
    (s.requestLimit ≤ (s.requestsInFlight.length : Int) → pumpQueue s = s) ∧
    (∀ r rest, (s.requestsInFlight.length : Int) < s.requestLimit →
      s.requestQueue = r :: rest → s.waitingQueue = [] →
      pumpQueue s =
        { s with requestQueue := rest
                 requestsInFlight := s.requestsInFlight ++ [(s.nextUUID, r)]
                 nextUUID := s.nextUUID + 1 }) ∧
    (∀ r rest w ws, (s.requestsInFlight.length : Int) < s.requestLimit →
      s.requestQueue = r :: rest → s.waitingQueue = w :: ws →
      waiterSettled s w = false →
      ∃ t2, (pumpQueue s).notifiedOrder = s.notifiedOrder ++ w :: t2) := by
  obtain ⟨q, fl, wa, wq, lim, nu, nw, no, tod, tim⟩ := s
  refine ⟨?_, ?_, ?_⟩
  · intro hfull
    try simp only at hfull
    unfold pumpQueue
    rw [if_pos (by (try simp only); omega)]
  · intro r rest hcap hq hw
    try simp only at hcap hq hw
    subst hq; subst hw
    unfold pumpQueue
    rw [if_neg (by (try simp only); omega)]
    simp only [List.length_cons]
    unfold pumpLoop
    rw [if_pos ⟨by (try simp only); omega, by simp⟩]
  · intro r rest w ws hcap hq hw hsettled
    try simp only at hcap hq hw
    subst hq; subst hw
    unfold pumpQueue
    rw [if_neg (by (try simp only); omega)]
    simp only [List.length_cons]
    unfold pumpLoop
    rw [if_pos ⟨by (try simp only); omega, by simp⟩]
    simp only
    have hset2 : waiterSettled
        ⟨rest, fl ++ [(nu, r)], wa, ws, lim, nu + 1, nw, no, tod, tim⟩ w = false := by
      simpa [waiterSettled] using hsettled
    simp only [resolveWaiter, hset2, Bool.false_eq_true, if_false]
    obtain ⟨t3, h3⟩ := pumpLoop_notified_extends rest.length
      ⟨rest, fl ++ [(nu, r)], setSettled wa w, ws, lim, nu + 1, nw, no ++ [w], tod, tim⟩ 1
      (lim - (fl.length : Int))
    refine ⟨t3, ?_⟩
    try simp only at h3 ⊢
    rw [h3]
    simp

/-- C2 counterexample: with limit 3, an empty in-flight set, two queued
requests and no pending waiter, a single pump pass dispatches only the
first queued request and then returns, leaving the second request queued
even though remaining capacity is positive; the claim says the pass keeps
dispatching while capacity remains and the queue is non-empty. -/
theorem pumpQueue_single_dispatch_counterexample :
    (pumpQueue ⟨[10, 11], [], [], [], 3, 0, 0, [], [], []⟩).requestQueue = [11] ∧
    (pumpQueue ⟨[10, 11], [], [], [], 3, 0, 0, [], [], []⟩).requestsInFlight = [(0, 10)] ∧
    ((pumpQueue ⟨[10, 11], [], [], [], 3, 0, 0, [], [], []⟩).requestsInFlight.length : Int)
      < (pumpQueue ⟨[10, 11], [], [], [], 3, 0, 0, [], [], []⟩).requestLimit := by
  decide

/-- Closed instantiation of the amended pump pass description. -/
theorem pumpQueue_pass_amended_witness :
    pumpQueue ⟨[5], [], [], [], 3, 0, 0, [], [], []⟩
      = ⟨[], [(0, 5)], [], [], 3, 1, 0, [], [], []⟩ ∧
    (∃ t2, (pumpQueue ⟨[6], [(0, 9)], [⟨4, false⟩], [4], 2, 1, 5, [], [], []⟩).notifiedOrder
      = [] ++ 4 :: t2) ∧
    pumpQueue ⟨[7], [(0, 9)], [], [], 1, 1, 0, [], [], []⟩
      = ⟨[7], [(0, 9)], [], [], 1, 1, 0, [], [], []⟩ := by
  refine ⟨?_, ?_, ?_⟩
  · exact (pumpQueue_pass_amended ⟨[5], [], [], [], 3, 0, 0, [], [], []⟩).2.1
      5 [] (by decide) rfl rfl
  · exact (pumpQueue_pass_amended ⟨[6], [(0, 9)], [⟨4, false⟩], [4], 2, 1, 5, [], [], []⟩).2.2
      6 [] 4 [] (by decide) rfl rfl (by decide)
  · exact (pumpQueue_pass_amended ⟨[7], [(0, 9)], [], [], 1, 1, 0, [], [], []⟩).1 (by decide)

/-- C3 counterexample: limit 1, one request in flight, waiters W1 (wid 1)
and W2 (wid 2) registered in that order, and an empty request queue. When
the in-flight request completes, the pump pass finds capacity but nothing
to dispatch, so it notifies nobody: W1 is not resolved at all, contrary to
the claim that completion of the in-flight request resolves W1. -/
theorem waiter_wake_counterexample :
    (settleRequest
      ⟨[], [(0, 100)], [⟨1, false⟩, ⟨2, false⟩], [1, 2], 1, 1, 3, [], [], []⟩ 0).notifiedOrder
      = [] ∧
    waiterSettled (settleRequest
      ⟨[], [(0, 100)], [⟨1, false⟩, ⟨2, false⟩], [1, 2], 1, 1, 3, [], [], []⟩ 0) 1 = false := by
  decide

/-- C3 (amended): waiters are notified only when the freed capacity lets a
queued request be dispatched. In the claimed scenario (limit 1, one
in-flight request, W1 then W2 registered) with additionally one queued
request, completion of the in-flight request resolves W1 and only W1, so
W1 is resolved before W2; with an empty request queue neither waiter is
notified. -/
theorem waiter_wake_order_amended (rid : Nat) :
    (settleRequest
      ⟨[rid], [(0, 100)], [⟨1, false⟩, ⟨2, false⟩], [1, 2], 1, 1, 3, [], [], []⟩ 0).notifiedOrder
      = [1] ∧
    waiterSettled (settleRequest
      ⟨[rid], [(0, 100)], [⟨1, false⟩, ⟨2, false⟩], [1, 2], 1, 1, 3, [], [], []⟩ 0) 2 = false ∧
    (settleRequest
      ⟨[], [(0, 100)], [⟨1, false⟩, ⟨2, false⟩], [1, 2], 1, 1, 3, [], [], []⟩ 0).notifiedOrder
      = [] := by
  exact ⟨rfl, rfl, by decide⟩

/-! ## The waiter contract -/

/-- Setting the settled flag of an existing waiter makes `waiterSettled`
read true afterwards. -/
theorem waiterSettled_setSettled (wa : List Waiter) (w : Nat)
    (hex : (wa.find? (fun x => x.wid == w)).isSome) :
    (((setSettled wa w).find? (fun x => x.wid == w)).map Waiter.settled).getD false = true := by
  induction wa with
  | nil => simp [List.find?] at hex
  | cons a l ih =>
    by_cases ha : a.wid == w
    · simp [setSettled, List.find?, ha]
    · simp only [setSettled, List.map_cons, if_neg ha] at ih ⊢
      rw [List.find?_cons_of_neg _ (by simpa using ha)]
      rw [List.find?_cons_of_neg _ (by simpa using ha)] at hex
      exact ih hex

/-- C7: the contract of `waitUntilQueueHasSpace`. With remaining capacity
positive it resolves immediately and registers nothing. Otherwise it
appends a fresh unsettled waiter to the registry tail and arms a timer
exactly when the timeout is positive and finite (the triggered pump is a
no-op because capacity is still exhausted). An armed timer that fires
while the waiter is unsettled marks it settled and rejects the wait with
the timeout error, recorded in `timedOut`. The settled flag makes the
notification of the gate a no-op afterwards, so no double settlement can
occur. -/
theorem waitUntilQueueHasSpace_contract (s : NetState) (t : JSNumber) :
    ((s.requestsInFlight.length : Int) < s.requestLimit →
      waitUntilQueueHasSpace s t = (s, none)) ∧
    (s.requestLimit ≤ (s.requestsInFlight.length : Int) →
      (waitUntilQueueHasSpace s t).2 = some s.nextWID ∧
      (waitUntilQueueHasSpace s t).1 =
        { s with waiters := s.waiters ++ [{ wid := s.nextWID, settled := false }]
                 waitingQueue := s.waitingQueue ++ [s.nextWID]
                 nextWID := s.nextWID + 1
                 armedTimers :=
                   if armsTimer t then s.armedTimers ++ [s.nextWID] else s.armedTimers }) ∧
    (∀ (s2 : NetState) (w : Nat), w ∈ s2.armedTimers →
      (s2.waiters.find? (fun x => x.wid == w)).isSome →
      waiterSettled s2 w = false →
      waiterSettled (timerFire s2 w) w = true ∧
      (timerFire s2 w).timedOut = s2.timedOut ++ [w]) ∧
    (∀ (s3 : NetState) (w : Nat), waiterSettled s3 w = true → resolveWaiter s3 w = s3) := by
  refine ⟨?_, ?_, ?_, ?_⟩
  · intro hcap
    unfold waitUntilQueueHasSpace
    rw [if_pos (by omega)]
  · intro hfull
    have hneg : ¬ 0 < s.requestLimit - (s.requestsInFlight.length : Int) := by omega
    unfold waitUntilQueueHasSpace
    rw [if_neg hneg, if_neg hneg]
    refine ⟨rfl, ?_⟩
    show pumpQueue _ = _
    unfold pumpQueue
    rw [if_pos (by show s.requestLimit - (s.requestsInFlight.length : Int) ≤ 0; omega)]
  · intro s2 w hmem hex hunsettled
    unfold timerFire
    rw [if_pos hmem]
    unfold failWaiter
    rw [if_neg (by simpa [waiterSettled] using hunsettled)]
    constructor
    · simpa [waiterSettled] using waiterSettled_setSettled s2.waiters w hex
    · rfl
  · intro s3 w hset
    unfold resolveWaiter
    rw [if_pos hset]

/-! ## Waits without a timer can settle only through a dispatch -/

theorem resolveWaiter_armedTimers (s : NetState) (w : Nat) :
    (resolveWaiter s w).armedTimers = s.armedTimers := by
  unfold resolveWaiter; split <;> rfl

theorem pumpLoop_armedTimers (fuel : Nat) :
    ∀ (s : NetState) (i : Nat) (remaining : Int),
      (pumpLoop fuel s i remaining).armedTimers = s.armedTimers := by
  induction fuel with
  | zero => intro s i remaining; rfl
  | succ fuel ih =>
    intro s i remaining
    obtain ⟨q, fl, wa, wq, lim, nu, nw, no, tod, tim⟩ := s
    unfold pumpLoop
    cases q with
    | nil => split <;> rfl
    | cons r rest =>
      cases wq with
      | nil => split <;> rfl
      | cons w ws =>
        split
        · rw [ih, resolveWaiter_armedTimers]
        · rfl

theorem pumpQueue_armedTimers (s : NetState) :
    (pumpQueue s).armedTimers = s.armedTimers := by
  unfold pumpQueue
  split
  · rfl
  · exact pumpLoop_armedTimers _ _ _ _

theorem pumpLoop_nextUUID_mono (fuel : Nat) :
    ∀ (s : NetState) (i : Nat) (remaining : Int),
      s.nextUUID ≤ (pumpLoop fuel s i remaining).nextUUID := by
  induction fuel with
  | zero => intro s i remaining; exact Nat.le_refl _
  | succ fuel ih =>
    intro s i remaining
    obtain ⟨q, fl, wa, wq, lim, nu, nw, no, tod, tim⟩ := s
    unfold pumpLoop
    cases q with
    | nil => split <;> simp
    | cons r rest =>
      cases wq with
      | nil => split <;> simp
      | cons w ws =>
        split
        · have hres := ih (resolveWaiter
            ⟨rest, fl ++ [(nu, r)], wa, ws, lim, nu + 1, nw, no, tod, tim⟩ w) (i + 1) remaining
          rw [resolveWaiter_nextUUID] at hres
          simp only at hres ⊢
          omega
        · simp

theorem pumpLoop_eq_of_nextUUID_eq (fuel : Nat) :
    ∀ (s : NetState) (i : Nat) (remaining : Int),
      (pumpLoop fuel s i remaining).nextUUID = s.nextUUID →
      pumpLoop fuel s i remaining = s := by
  induction fuel with
  | zero => intro s i remaining _; rfl
  | succ fuel ih =>
    intro s i remaining h
    obtain ⟨q, fl, wa, wq, lim, nu, nw, no, tod, tim⟩ := s
    unfold pumpLoop at h ⊢
    cases q with
    | nil =>
      split <;> rfl
    | cons r rest =>
      cases wq with
      | nil =>
        split at h
        · exfalso
          simp only at h
          omega
        · rename_i hcond
          rw [if_neg hcond]
      | cons w ws =>
        split at h
        · exfalso
          have hres := pumpLoop_nextUUID_mono fuel (resolveWaiter
            ⟨rest, fl ++ [(nu, r)], wa, ws, lim, nu + 1, nw, no, tod, tim⟩ w) (i + 1) remaining
          rw [resolveWaiter_nextUUID] at hres
          simp only at hres h
          omega
        · rename_i hcond
          rw [if_neg hcond]

theorem pumpQueue_eq_of_nextUUID_eq (s : NetState)
    (h : (pumpQueue s).nextUUID = s.nextUUID) : pumpQueue s = s := by
  unfold pumpQueue at h ⊢
  by_cases hc : s.requestLimit - (s.requestsInFlight.length : Int) ≤ 0
  · rw [if_pos hc]
  · rw [if_neg hc] at h ⊢
    exact pumpLoop_eq_of_nextUUID_eq _ _ _ _ h

theorem pumpQueue_nextUUID_mono (s : NetState) :
    s.nextUUID ≤ (pumpQueue s).nextUUID := by
  unfold pumpQueue
  split
  · exact Nat.le_refl _
  · exact pumpLoop_nextUUID_mono _ _ _ _

theorem netStep_nextUUID_mono (s : NetState) (e : NetEvent) :
    s.nextUUID ≤ (netStep s e).nextUUID := by
  cases e with
  | enqueue rid =>
    exact pumpQueue_nextUUID_mono { s with requestQueue := s.requestQueue ++ [rid] }
  | settle uuid =>
    exact pumpQueue_nextUUID_mono
      { s with requestsInFlight := s.requestsInFlight.eraseP (fun p => p.1 == uuid) }
  | wait t =>
    show s.nextUUID ≤ ((waitUntilQueueHasSpace s t).1).nextUUID
    unfold waitUntilQueueHasSpace
    by_cases hc : 0 < s.requestLimit - (s.requestsInFlight.length : Int)
    · rw [if_pos hc]
    · rw [if_neg hc, if_neg hc]
      exact pumpQueue_nextUUID_mono
        { s with waiters := s.waiters ++ [{ wid := s.nextWID, settled := false }]
                 waitingQueue := s.waitingQueue ++ [s.nextWID]
                 nextWID := s.nextWID + 1
                 armedTimers :=
                   if armsTimer t then s.armedTimers ++ [s.nextWID] else s.armedTimers }
  | timer w =>
    show s.nextUUID ≤ (timerFire s w).nextUUID
    unfold timerFire
    split
    · unfold failWaiter
      split <;> exact Nat.le_refl _
    · exact Nat.le_refl _

theorem netRun_nextUUID_mono (es : List NetEvent) :
    ∀ (s : NetState), s.nextUUID ≤ (netRun s es).nextUUID := by
  induction es with
  | nil => intro s; exact Nat.le_refl _
  | cons e es ih =>
    intro s
    exact Nat.le_trans (netStep_nextUUID_mono s e) (ih (netStep s e))

/-- Changing the settled flag of one waiter id leaves the lookup of any
other id unchanged. -/
theorem find?_setSettled_ne (wa : List Waiter) (u w : Nat) (hne : u ≠ w) :
    (setSettled wa u).find? (fun x => x.wid == w) = wa.find? (fun x => x.wid == w) := by
  induction wa with
  | nil => rfl
  | cons a l ih =>
    simp only [setSettled, List.map_cons] at ih ⊢
    by_cases ha : a.wid = u
    · have haw : (a.wid == w) = false := by simp [ha, hne]
      rw [if_pos (by simpa using ha)]
      simp only [List.find?_cons, haw]
      exact ih
    · have hau : (a.wid == u) = false := by simp [ha]
      rw [if_neg (by simp [hau])]
      by_cases haw : a.wid = w
      · simp only [List.find?_cons, show (a.wid == w) = true by simpa using haw]
      · simp only [List.find?_cons, show (a.wid == w) = false by simpa using haw]
        exact ih

/-- A waiter that has no armed timer, carries an id below the id counter
and is unsettled. Such a waiter can only be settled by the notification
that accompanies a dispatch. -/
def WaiterDormant (w : Nat) (s : NetState) : Prop :=
  w ∉ s.armedTimers ∧ w < s.nextWID ∧ waiterSettled s w = false

theorem netStep_dormant (s : NetState) (e : NetEvent) (w : Nat)
    (hd : WaiterDormant w s) (huuid : (netStep s e).nextUUID = s.nextUUID) :
    WaiterDormant w (netStep s e) := by
  obtain ⟨hat, hw, hset⟩ := hd
  cases e with
  | enqueue rid =>
    have hid : pumpQueue { s with requestQueue := s.requestQueue ++ [rid] }
        = { s with requestQueue := s.requestQueue ++ [rid] } :=
      pumpQueue_eq_of_nextUUID_eq _ (by simpa [netStep, makeRequest] using huuid)
    show WaiterDormant w (pumpQueue { s with requestQueue := s.requestQueue ++ [rid] })
    rw [hid]
    exact ⟨hat, hw, hset⟩
  | settle uuid =>
    have hid : pumpQueue
        { s with requestsInFlight := s.requestsInFlight.eraseP (fun p => p.1 == uuid) }
        = { s with requestsInFlight := s.requestsInFlight.eraseP (fun p => p.1 == uuid) } :=
      pumpQueue_eq_of_nextUUID_eq _ (by simpa [netStep, settleRequest] using huuid)
    show WaiterDormant w (pumpQueue
      { s with requestsInFlight := s.requestsInFlight.eraseP (fun p => p.1 == uuid) })
    rw [hid]
    exact ⟨hat, hw, hset⟩
  | wait t =>
    show WaiterDormant w ((waitUntilQueueHasSpace s t).1)
    have huuid2 : ((waitUntilQueueHasSpace s t).1).nextUUID = s.nextUUID := huuid
    unfold waitUntilQueueHasSpace at huuid2 ⊢
    by_cases hc : 0 < s.requestLimit - (s.requestsInFlight.length : Int)
    · rw [if_pos hc]
      exact ⟨hat, hw, hset⟩
    · rw [if_neg hc, if_neg hc] at huuid2 ⊢
      simp only at huuid2 ⊢
      have hid := pumpQueue_eq_of_nextUUID_eq _ huuid2
      rw [hid]
      refine ⟨?_, by simp only; omega, ?_⟩
      · by_cases harm : armsTimer t
        · simp only [harm, if_true]
          intro hcontra
          rcases List.mem_append.mp hcontra with hl | hr
          · exact hat hl
          · have : w = s.nextWID := by simpa using hr
            omega
        · simp only [harm, Bool.false_eq_true, if_false]
          exact hat
      · simp only [waiterSettled] at hset ⊢
        rw [List.find?_append]
        cases hfind : s.waiters.find? (fun x => x.wid == w) with
        | some a =>
          rw [hfind] at hset
          simpa [Option.or] using hset
        | none =>
          have hnw : (s.nextWID == w) = false := by
            simpa using (by omega : s.nextWID ≠ w)
          simp [Option.or, List.find?_cons, hnw]
  | timer wid =>
    show WaiterDormant w (timerFire s wid)
    unfold timerFire
    by_cases hmem : wid ∈ s.armedTimers
    · rw [if_pos hmem]
      have hne : wid ≠ w := fun hcontra => hat (hcontra ▸ hmem)
      unfold failWaiter
      split
      · exact ⟨fun hc => hat (List.mem_of_mem_erase hc), hw, hset⟩
      · refine ⟨fun hc => hat (List.mem_of_mem_erase hc), hw, ?_⟩
        simp only [waiterSettled] at hset ⊢
        rw [find?_setSettled_ne s.waiters wid w hne]
        exact hset
    · rw [if_neg hmem]
      exact ⟨hat, hw, hset⟩

/-- Closed instantiation of the waitUntilQueueHasSpace contract. -/
theorem waitUntilQueueHasSpace_contract_witness :
    waitUntilQueueHasSpace ⟨[], [], [], [], 3, 0, 0, [], [], []⟩ (.finite 50)
      = (⟨[], [], [], [], 3, 0, 0, [], [], []⟩, none) ∧
    (waitUntilQueueHasSpace ⟨[], [(0, 1)], [], [], 1, 1, 0, [], [], []⟩ (.finite 50)).2
      = some 0 ∧
    (waitUntilQueueHasSpace ⟨[], [(0, 1)], [], [], 1, 1, 0, [], [], []⟩ (.finite 50)).1
      = ⟨[], [(0, 1)], [⟨0, false⟩], [0], 1, 1, 1, [], [], [0]⟩ ∧
    waiterSettled (timerFire ⟨[], [(0, 1)], [⟨0, false⟩], [0], 1, 1, 1, [], [], [0]⟩ 0) 0
      = true ∧
    (timerFire ⟨[], [(0, 1)], [⟨0, false⟩], [0], 1, 1, 1, [], [], [0]⟩ 0).timedOut = [0] ∧
    resolveWaiter ⟨[], [(0, 1)], [⟨0, true⟩], [0], 1, 1, 1, [], [], []⟩ 0
      = ⟨[], [(0, 1)], [⟨0, true⟩], [0], 1, 1, 1, [], [], []⟩ := by
  have h3 := (waitUntilQueueHasSpace_contract
    ⟨[], [(0, 1)], [], [], 1, 1, 0, [], [], []⟩ (JSNumber.finite 50)).2.2.1
    ⟨[], [(0, 1)], [⟨0, false⟩], [0], 1, 1, 1, [], [], [0]⟩ 0
    (by decide) (by decide) (by decide)
  refine ⟨(waitUntilQueueHasSpace_contract _ _).1 (by decide),
    ((waitUntilQueueHasSpace_contract _ _).2.1 (by decide)).1,
    ((waitUntilQueueHasSpace_contract _ _).2.1 (by decide)).2,
    h3.1, h3.2,
    (waitUntilQueueHasSpace_contract
      ⟨[], [(0, 1)], [⟨0, true⟩], [0], 1, 1, 1, [], [], []⟩ (JSNumber.finite 50)).2.2.2
      ⟨[], [(0, 1)], [⟨0, true⟩], [0], 1, 1, 1, [], [], []⟩ 0 (by decide)⟩

theorem netRun_dormant (es : List NetEvent) :
    ∀ (s : NetState) (w : Nat), WaiterDormant w s →
      (netRun s es).nextUUID = s.nextUUID → WaiterDormant w (netRun s es) := by
  induction es with
  | nil => exact fun s w h _ => h
  | cons e es ih =>
    intro s w hd huuid
    have hchain : netRun s (e :: es) = netRun (netStep s e) es := rfl
    rw [hchain] at huuid ⊢
    have h1 := netStep_nextUUID_mono s e
    have h2 := netRun_nextUUID_mono es (netStep s e)
    have hstep : (netStep s e).nextUUID = s.nextUUID := by omega
    exact ih (netStep s e) w (netStep_dormant s e w hd hstep) (by omega)

/-- C10: when the timeout passed to `waitUntilQueueHasSpace` is zero,
negative or non-finite, no timer is armed by the call; a registered waiter
(capacity exhausted, fresh id) is then dormant: no armed timer, id below
the counter, unsettled; and a dormant waiter stays unsettled across every
sequence of events in which no request is dispatched (the uuid counter is
unchanged exactly when no dispatch happened), so such a wait remains
pending forever. -/
theorem wait_no_timer_pending_forever (t : JSNumber)
    (ht : t.isFinite = false ∨ ∃ v, t = JSNumber.finite v ∧ v ≤ 0) :
    (∀ s : NetState, ((waitUntilQueueHasSpace s t).1).armedTimers = s.armedTimers) ∧
    (∀ s : NetState, s.requestLimit ≤ (s.requestsInFlight.length : Int) →
      s.waiters.find? (fun x => x.wid == s.nextWID) = none →
      s.nextWID ∉ s.armedTimers →
      WaiterDormant s.nextWID ((waitUntilQueueHasSpace s t).1)) ∧
    (∀ (s : NetState) (w : Nat) (es : List NetEvent),
      WaiterDormant w s → (netRun s es).nextUUID = s.nextUUID →
      waiterSettled (netRun s es) w = false) := by
  have harm : armsTimer t = false := by
    rcases ht with h | ⟨v, rfl, hv⟩
    · cases t <;> simp_all [armsTimer, JSNumber.isFinite]
    · simp only [armsTimer, JSNumber.isFinite, JSNumber.gtZero, Bool.true_and,
        decide_eq_false_iff_not]
      omega
  refine ⟨?_, ?_, ?_⟩
  · intro s
    unfold waitUntilQueueHasSpace
    by_cases hc : 0 < s.requestLimit - (s.requestsInFlight.length : Int)
    · rw [if_pos hc]
    · rw [if_neg hc, if_neg hc]
      simp only
      rw [pumpQueue_armedTimers]
      simp [harm]
  · intro s hfull hfresh hfreshTimer
    unfold waitUntilQueueHasSpace
    rw [if_neg (by omega), if_neg (by omega)]
    simp only
    have hid : pumpQueue
        { s with waiters := s.waiters ++ [{ wid := s.nextWID, settled := false }]
                 waitingQueue := s.waitingQueue ++ [s.nextWID]
                 nextWID := s.nextWID + 1
                 armedTimers :=
                   if armsTimer t then s.armedTimers ++ [s.nextWID] else s.armedTimers }
        = { s with waiters := s.waiters ++ [{ wid := s.nextWID, settled := false }]
                   waitingQueue := s.waitingQueue ++ [s.nextWID]
                   nextWID := s.nextWID + 1
                   armedTimers :=
                     if armsTimer t then s.armedTimers ++ [s.nextWID] else s.armedTimers } := by
      unfold pumpQueue
      rw [if_pos (by show s.requestLimit - (s.requestsInFlight.length : Int) ≤ 0; omega)]
    rw [hid]
    refine ⟨?_, Nat.lt_succ_self s.nextWID, ?_⟩
    · simp only [harm, Bool.false_eq_true, if_false]
      exact hfreshTimer
    · simp only [waiterSettled]
      rw [List.find?_append, hfresh]
      simp [Option.or, List.find?_cons]
  · intro s w es hd huuid
    exact (netRun_dormant es s w hd huuid).2.2

/-- Closed instantiation: a wait with timeout zero arms no timer, its
waiter is dormant, and a dormant waiter stays unsettled across events that
dispatch nothing. -/
theorem wait_no_timer_pending_forever_witness :
    ((waitUntilQueueHasSpace ⟨[], [(0, 1)], [], [], 1, 1, 0, [], [], []⟩
      (.finite 0)).1).armedTimers = [] ∧
    WaiterDormant 0 ((waitUntilQueueHasSpace ⟨[], [(0, 1)], [], [], 1, 1, 0, [], [], []⟩
      (.finite 0)).1) ∧
    waiterSettled (netRun ⟨[], [(0, 1)], [⟨0, false⟩], [0], 1, 1, 1, [], [], []⟩
      [.settle 9, .timer 0, .wait .nan]) 0 = false := by
  have ht : (JSNumber.finite 0).isFinite = false ∨
      ∃ v, JSNumber.finite 0 = JSNumber.finite v ∧ v ≤ 0 := Or.inr ⟨0, rfl, Int.le_refl 0⟩
  refine ⟨(wait_no_timer_pending_forever _ ht).1 _,
    (wait_no_timer_pending_forever _ ht).2.1 _ (by decide) (by decide) (by decide),
    (wait_no_timer_pending_forever _ ht).2.2 _ 0 _
      ⟨by decide, by decide, by decide⟩ (by decide)⟩


/-! ## File-system helpers (src/src/helpers/fs.ts)

The file system is modelled as the list of regular files the tool works
with, identified by path and carrying their byte contents. Files the tool
touches are regular files created with default permissions, so an existing
entry is readable and writable; `fs.access` rejects with ENOENT on a path
that does not exist. -/

structure FSFile where
  path : String
  contents : List Nat
deriving Repr, DecidableEq

def findFile (fs : List FSFile) (p : String) : Option FSFile :=
  fs.find? (fun f => f.path == p)

/-- Embedding of `isFile` (fs.ts lines 100-123): the path exists and its stats mark it
a regular file; every entry of the model is a regular file. -/
def isFile (fs : List FSFile) (p : String) : Bool := (findFile fs p).isSome

/-- Embedding of `isReadable` (fs.ts lines 177-184): `access(path, R_OK)` succeeds. -/
def isReadable (fs : List FSFile) (p : String) : Bool := (findFile fs p).isSome

/-- Embedding of `isWritable` (fs.ts lines 200-207): `access(path, W_OK)` succeeds; for
a missing path `access` rejects, so the result is false. -/
def isWritable (fs : List FSFile) (p : String) : Bool := (findFile fs p).isSome

/-- Embedding of `createWritableStream` (fs.ts lines 314-323): throw unless
`isWritable(path)`; otherwise `open(path, w)` truncates the existing file
and a write stream over it is returned. The success value is the file
system after the truncating open together with the path the stream writes
to. -/
def createWritableStream (fs : List FSFile) (p : String) :
    Except String (List FSFile × String) :=
  if !(isWritable fs p) then .error ("\"" ++ p ++ "\" is not writable")
  else .ok (fs.map (fun f => if f.path == p then { f with contents := [] } else f), p)

/-- C9: for every path with no file on disk, `createWritableStream`
rejects with the `is not writable` error instead of creating the file,
because the `isWritable` precheck runs `fs.access` with `W_OK` and that
fails on non-existent paths. Consequently a fresh staging file at a
not-yet-existing path cannot be opened through it (the download handler
calls it on the staging path, download.ts lines 610-615). -/
theorem createWritableStream_missing_path (fs : List FSFile) (p : String)
    (h : findFile fs p = none) :
    createWritableStream fs p = .error ("\"" ++ p ++ "\" is not writable") := by
  unfold createWritableStream isWritable
  rw [h]
  rfl

/-- Closed instantiation: the staging path of a fresh file is rejected. -/
theorem createWritableStream_missing_path_witness :
    createWritableStream [] "staging/mods/foo.jar"
      = .error ("\"" ++ "staging/mods/foo.jar" ++ "\" is not writable") :=
  createWritableStream_missing_path [] "staging/mods/foo.jar" rfl

/-- The digest model: `createHash(algo)` creates a streaming hasher and
`digest(hex)` finalizes it over the bytes written so far. `digest algo
bytes` stands for the hex digest of `bytes` under `algo`. -/
def checkFileIntegrity (digest : String → List Nat → String) (fs : List FSFile)
    (p : String) (hash : String) (algo : String) : Bool :=
  if !(isFile fs p) then false
  else
    -- const digester = createHash(algo);
    -- const is = await createReadableStream(path);
    -- is.pipe(digester);
    -- const fileHash = digester.digest(hex);     (fs.ts lines 344-347)
    -- The digest call runs in the same synchronous block as the pipe call;
    -- piped data is delivered on later event-loop turns, so the hasher has
    -- been fed no bytes when it is finalized.
    (digest algo []) == hash

/-- The behaviour the claim (and the doc comment of the source function)
describes: true exactly when the file exists and the digest of its
contents under the algorithm equals the hash. -/
def checkFileIntegrityClaim (digest : String → List Nat → String) (fs : List FSFile)
    (p : String) (hash : String) (algo : String) : Bool :=
  if !(isFile fs p) then false
  else (digest algo (((findFile fs p).map FSFile.contents).getD [])) == hash

/-- A stand-in digest for concrete evaluation; the divergence shown below
does not depend on which hash function is plugged in. -/
def demoDigest (algo : String) (bytes : List Nat) : String :=
  algo ++ "-" ++ toString bytes.length

/-- C4: the integrity check compares the hash against the digest of the
empty input, never against the digest of the file contents, because
`digest(hex)` is called synchronously before the piped stream delivers any
byte. For an existing file whose content digest equals the hash the code
returns false where the claim says true; it even returns true when the
hash is the empty-input digest and the contents do not match; only the
missing-path case agrees with the claim. -/
theorem checkFileIntegrity_empty_digest_bug :
    checkFileIntegrity demoDigest [⟨"mods/foo.jar", [97, 98, 99]⟩]
      "mods/foo.jar" (demoDigest "sha1" [97, 98, 99]) "sha1" = false ∧
    checkFileIntegrityClaim demoDigest [⟨"mods/foo.jar", [97, 98, 99]⟩]
      "mods/foo.jar" (demoDigest "sha1" [97, 98, 99]) "sha1" = true ∧
    checkFileIntegrity demoDigest [⟨"mods/foo.jar", [97, 98, 99]⟩]
      "mods/foo.jar" (demoDigest "sha1" []) "sha1" = true ∧
    checkFileIntegrityClaim demoDigest [⟨"mods/foo.jar", [97, 98, 99]⟩]
      "mods/foo.jar" (demoDigest "sha1" []) "sha1" = false ∧
    checkFileIntegrity demoDigest [] "missing.jar" (demoDigest "sha1" []) "sha1" = false := by
  decide

/-! ## The version download command (src/src/commands/version/download.ts) -/

/-- What the promise wrapped around one pipe attempt does: the `end` event
fires (success), the `error` event fires (failure), or neither ever fires
and the awaited promise stays pending. The write stream `os` and the read
stream `is` are created once, before the retry loop, so every attempt
after the first re-pipes the same, already-consumed stream; whether such a
re-pipe fails or never settles depends on the stream internals, so the
attempt outcomes are a parameter of the model. -/
inductive StreamOutcome where
  | success
  | failure
  | pending
deriving Repr, DecidableEq

/-- How the retry loop finished. -/
inductive ExitKind where
  | broke
  | exhausted
  | escaped (e : String)
  | hung
deriving Repr, DecidableEq

/-- Observable outcome of a run of the retry loop: the number of pipe
attempts started, the number of unlink calls that resolved, whether the
staging file exists afterwards, and how the loop finished: `broke` after a
successful attempt, `exhausted` when the while condition stopped the loop
after a caught failure, `escaped e` when an exception other than the pipe
failure left the loop (the unlink rejection), and `hung` when an awaited
promise never settles. -/
structure RetryExit where
  attempts : Nat
  unlinks : Nat
  fileExists : Bool
  exit : ExitKind
deriving Repr, DecidableEq

/-- The rejection message of `unlink` on a missing path. -/
def ENOENT (p : String) : String :=
  "ENOENT: no such file or directory, unlink " ++ p

/-- The per-file retry loop (download.ts lines 648-676):

    let tries = args.perFileRetries;
    do \x7b
        tries--;
        try \x7b await pipe-the-stream \x7d
        catch (ex) \x7b await unlink(outputPath); warn; continue; \x7d
        break;
    \x7d while (tries > 0);

`outcome k` is the behaviour of the k-th pipe attempt and `fileExists`
whether the staging file at `outputPath` is on disk (true at loop entry:
`createWritableStream` succeeded on it). A pending attempt leaves the
closure awaiting forever. A successful attempt breaks; the staging file is
whatever it was (the first attempt wrote it through `os`; a later
hypothetical success writes nothing, `os` being closed, and the file was
already unlinked). A failed attempt runs `await unlink(outputPath)`: when
the file exists the unlink resolves, removes it, and the loop continues
while the decremented counter is positive; when the file is already gone
(every attempt after a first failure) the unlink rejects with ENOENT and
that exception escapes the do-while and the whole closure. `fuel` bounds
the recursion: the loop repeats only while the decremented counter is
positive, so with fuel `tries.toNat` the fuel is exhausted only when the
while condition is false after the current body, as in the source. -/
def retryLoop (outcome : Nat → StreamOutcome) (p : String) :
    Nat → Int → Nat → Nat → Bool → RetryExit
  | 0, _, attempts, unlinks, fileExists =>
    match outcome attempts with
    | .pending => ⟨attempts + 1, unlinks, fileExists, ExitKind.hung⟩
    | .success => ⟨attempts + 1, unlinks, fileExists, ExitKind.broke⟩
    | .failure =>
      if fileExists then ⟨attempts + 1, unlinks + 1, false, ExitKind.exhausted⟩
      else ⟨attempts + 1, unlinks, fileExists, ExitKind.escaped (ENOENT p)⟩
  | fuel + 1, tries, attempts, unlinks, fileExists =>
    match outcome attempts with
    | .pending => ⟨attempts + 1, unlinks, fileExists, ExitKind.hung⟩
    | .success => ⟨attempts + 1, unlinks, fileExists, ExitKind.broke⟩
    | .failure =>
      if fileExists then
        (if 0 < tries - 1 then
          retryLoop outcome p fuel (tries - 1) (attempts + 1) (unlinks + 1) false
         else ⟨attempts + 1, unlinks + 1, false, ExitKind.exhausted⟩)
      else ⟨attempts + 1, unlinks, fileExists, ExitKind.escaped (ENOENT p)⟩

def downloadFileRetries (outcome : Nat → StreamOutcome) (perFileRetries : Int)
    (p : String) : RetryExit :=
  retryLoop outcome p perFileRetries.toNat perFileRetries 0 0 true

deriving instance DecidableEq for Except

/-- How the per-file closure settles, if at all. -/
inductive DownloadOutcome where
  | settled (r : Except String Unit)
  | pending
deriving Repr, DecidableEq

/-- Lines 677-684: when the loop finished normally, the staging path must
exist or the handler throws the aborting error for the file; an exception
that escaped the loop rejects the closure with that exception instead, and
a hung attempt leaves the closure pending forever. `name` stands for the
staging path of the file, rendered into both messages. -/
def downloadFileResult (outcome : Nat → StreamOutcome) (perFileRetries : Int)
    (name : String) : DownloadOutcome :=
  match downloadFileRetries outcome perFileRetries name with
  | ⟨_, _, _, ExitKind.hung⟩ => .pending
  | ⟨_, _, _, ExitKind.escaped e⟩ => .settled (.error e)
  | ⟨_, _, fileExists, ExitKind.broke⟩ =>
    if fileExists then .settled (.ok ())
    else .settled (.error ("Failed to download \"" ++ name ++ "\", aborting"))
  | ⟨_, _, fileExists, ExitKind.exhausted⟩ =>
    if fileExists then .settled (.ok ())
    else .settled (.error ("Failed to download \"" ++ name ++ "\", aborting"))

/-- C5 counterexample: with `perFileRetries = 3` and failing attempts, the
loop makes only 2 pipe attempts and 1 unlink: the first failure unlinks
the staging file, the second failure finds it gone, so its `await
unlink(outputPath)` rejects with ENOENT and escapes the loop; the claimed
3 retries with the partial file removed before each one never happen and
the aborting failure is never surfaced. -/
theorem retry_exhaustion_counterexample :
    downloadFileRetries (fun _ => StreamOutcome.failure) 3 "mods/foo.jar"
      = ⟨2, 1, false, ExitKind.escaped (ENOENT "mods/foo.jar")⟩ ∧
    downloadFileResult (fun _ => StreamOutcome.failure) 3 "mods/foo.jar"
      = .settled (.error (ENOENT "mods/foo.jar")) ∧
    ¬ downloadFileResult (fun _ => StreamOutcome.failure) 3 "mods/foo.jar"
      = .settled (.error ("Failed to download \"" ++ "mods/foo.jar" ++ "\", aborting")) := by
  decide

/-- After the staging file is gone, the loop can never run another body:
every outcome of the next attempt stops it. -/
theorem retryLoop_noFile_attempts (outcome : Nat → StreamOutcome) (p : String)
    (fuel : Nat) (tries : Int) (k u : Nat) :
    (retryLoop outcome p fuel tries k u false).attempts ≤ k + 1 := by
  cases fuel <;> cases houtcome : outcome k <;> simp [retryLoop, houtcome]

/-- C5 (amended): however large `perFileRetries` is, the loop starts at
most two pipe attempts. When every attempt fails: with `perFileRetries ≤ 1`
there is a single attempt, one unlink of the partial staging file, and the
aborting failure is surfaced for the file; with `perFileRetries ≥ 2` a
second attempt re-pipes the consumed stream and either its failure makes
the second unlink reject with ENOENT, which escapes the loop in place of
the aborting error, or the attempt never settles and the download hangs.
Only the single unlink after the first failure ever removes a partial
file. -/
theorem retry_exhaustion_amended (n : Int) (p : String) :
    (∀ outcome : Nat → StreamOutcome,
      (downloadFileRetries outcome n p).attempts ≤ 2) ∧
    (n ≤ 1 →
      downloadFileRetries (fun _ => StreamOutcome.failure) n p
        = ⟨1, 1, false, ExitKind.exhausted⟩ ∧
      downloadFileResult (fun _ => StreamOutcome.failure) n p
        = .settled (.error ("Failed to download \"" ++ p ++ "\", aborting"))) ∧
    (2 ≤ n →
      downloadFileRetries (fun _ => StreamOutcome.failure) n p
        = ⟨2, 1, false, ExitKind.escaped (ENOENT p)⟩ ∧
      downloadFileResult (fun _ => StreamOutcome.failure) n p
        = .settled (.error (ENOENT p))) ∧
    (2 ≤ n →
      downloadFileRetries (fun k => if k == 0 then StreamOutcome.failure else .pending) n p
        = ⟨2, 1, false, ExitKind.hung⟩ ∧
      downloadFileResult (fun k => if k == 0 then StreamOutcome.failure else .pending) n p
        = .pending) := by
  refine ⟨?_, ?_, ?_, ?_⟩
  · intro outcome
    unfold downloadFileRetries
    cases hf : n.toNat with
    | zero =>
      cases houtcome : outcome 0 <;> simp [retryLoop, houtcome]
    | succ fuel =>
      cases houtcome : outcome 0 with
      | success => simp [retryLoop, houtcome]
      | pending => simp [retryLoop, houtcome]
      | failure =>
        simp only [retryLoop, houtcome, reduceIte]
        by_cases hcont : (0 : Int) < n - 1
        · rw [if_pos hcont]
          exact retryLoop_noFile_attempts outcome p fuel (n - 1) (0 + 1) (0 + 1)
        · rw [if_neg hcont]
          simp
  · intro hn
    by_cases h1 : n = 1
    · subst h1
      exact ⟨rfl, rfl⟩
    · have h0 : n.toNat = 0 := by omega
      have hr : downloadFileRetries (fun _ => StreamOutcome.failure) n p
          = ⟨1, 1, false, ExitKind.exhausted⟩ := by
        unfold downloadFileRetries
        rw [h0]
        rfl
      refine ⟨hr, ?_⟩
      unfold downloadFileResult
      rw [hr]
      rfl
  · intro hn
    obtain ⟨m, hm⟩ : ∃ m, n.toNat = m + 2 := ⟨n.toNat - 2, by omega⟩
    have hr : downloadFileRetries (fun _ => StreamOutcome.failure) n p
        = ⟨2, 1, false, ExitKind.escaped (ENOENT p)⟩ := by
      unfold downloadFileRetries
      rw [hm]
      simp only [retryLoop, show ((0 : Int) < n - 1) = True from eq_true (by omega), if_true]
      rfl
    refine ⟨hr, ?_⟩
    unfold downloadFileResult
    rw [hr]
  · intro hn
    obtain ⟨m, hm⟩ : ∃ m, n.toNat = m + 2 := ⟨n.toNat - 2, by omega⟩
    have hr : downloadFileRetries
        (fun k => if k == 0 then StreamOutcome.failure else .pending) n p
        = ⟨2, 1, false, ExitKind.hung⟩ := by
      unfold downloadFileRetries
      rw [hm]
      simp only [retryLoop, show ((0 : Int) < n - 1) = True from eq_true (by omega), if_true]
      rfl
    refine ⟨hr, ?_⟩
    unfold downloadFileResult
    rw [hr]

/-- Closed instantiations: the single-attempt aborting failure at
`perFileRetries = 1`, and the ENOENT escape and the hang at the default
`perFileRetries = 3`. -/
theorem retry_exhaustion_amended_witness :
    (downloadFileRetries (fun _ => StreamOutcome.failure) 1 "mods/a.jar").attempts ≤ 2 ∧
    downloadFileResult (fun _ => StreamOutcome.failure) 1 "mods/a.jar"
      = .settled (.error ("Failed to download \"" ++ "mods/a.jar" ++ "\", aborting")) ∧
    downloadFileResult (fun _ => StreamOutcome.failure) 3 "mods/a.jar"
      = .settled (.error (ENOENT "mods/a.jar")) ∧
    downloadFileResult (fun k => if k == 0 then StreamOutcome.failure else .pending) 3 "mods/a.jar"
      = .pending := by
  refine ⟨(retry_exhaustion_amended 1 "mods/a.jar").1 _,
    ((retry_exhaustion_amended 1 "mods/a.jar").2.1 (by decide)).2,
    ((retry_exhaustion_amended 3 "mods/a.jar").2.2.1 (by decide)).2,
    ((retry_exhaustion_amended 3 "mods/a.jar").2.2.2 (by decide)).2⟩

/-! ## The download batch (download.ts lines 558-698) -/

/-- A file of the batch. `attemptPlan` lists the behaviour of its
successive pipe attempts (a missing entry means no further stream event
arrives, so the attempt stays pending); `settleTime` is the event-loop
time at which the closure settles, when it settles. -/
structure BatchFile where
  name : String
  serveronly : Bool
  hasURL : Bool
  attemptPlan : List StreamOutcome
  settleTime : Nat
deriving Repr, DecidableEq

structure FileTrace where
  networkCalls : Nat
  result : DownloadOutcome
deriving Repr, DecidableEq

/-- One entry of the `data.files.map` closure in the handler (download.ts
lines 559-685), for a batch in which no candidate file pre-exists in the
output directory (the pre-existing-file branch of lines 563-608 returns
without downloading). A server-only file returns at once; a file with
neither curseforge locator nor url throws before any network call;
otherwise the stream is requested exactly once, before the retry loop.
The closure reads no state shared with the other files: the handler has no
abort flag, so nothing another file does can make this file skip its
network call. -/
def downloadOne (perFileRetries : Int) (f : BatchFile) : FileTrace :=
  if f.serveronly then ⟨0, .settled (.ok ())⟩
  else if !f.hasURL then
    ⟨0, .settled (.error ("Cannot download \"" ++ f.name ++ "\", no URL"))⟩
  else ⟨1, downloadFileResult (fun k => f.attemptPlan.getD k StreamOutcome.pending)
    perFileRetries f.name⟩

/-- The earliest rejection among the per-file outcomes; pending closures
never reject. -/
def firstRejection : List (Nat × DownloadOutcome) → Option (Nat × String)
  | [] => none
  | (t, .settled (.error e)) :: rest =>
    match firstRejection rest with
    | some (t2, e2) => if t2 < t then some (t2, e2) else some (t, e)
    | none => some (t, e)
  | _ :: rest => firstRejection rest

def allSettled : List (Nat × DownloadOutcome) → Bool
  | [] => true
  | (_, .settled _) :: rest => allSettled rest
  | (_, .pending) :: _ => false

/-- Semantics of `Promise.all` over the per-file outcomes: it rejects with
the earliest rejection at the moment that rejection happens, even while
other members are still pending; it resolves only when every member has
resolved, at the last settle time; with no rejection and a pending member
it never settles (`none`). -/
def promiseAll (ps : List (Nat × DownloadOutcome)) : Option (Nat × Except String Unit) :=
  match firstRejection ps with
  | some (t, e) => some (t, .error e)
  | none =>
    if allSettled ps then some (ps.foldl (fun m q => max m q.1) 0, .ok ()) else none

/-- Embedding of `await Promise.all(downloads)` over the per-file closures
(download.ts lines 559 and 686). -/
def runBatch (perFileRetries : Int) (files : List BatchFile) :
    List (BatchFile × FileTrace) × Option (Nat × Except String Unit) :=
  (files.map (fun f => (f, downloadOne perFileRetries f)),
   promiseAll ((files.map (fun f => (f, downloadOne perFileRetries f))).map
     (fun ft => (ft.1.settleTime, ft.2.result))))

/-- C6 counterexample: `perFileRetries = 1`, a batch of two files in which
the first fails its single allowed attempt and surfaces the aborting error
at time 1 while the second succeeds at time 5. The second file still
performs its network call, although its download had not settled when the
first file failed, and the batch surfaces the failure at time 1, before
the second download settles at time 5: no abort flag makes
not-yet-started files skip their network call, and the aggregate promise
does not await all in-flight promises before surfacing the failure. -/
theorem batch_abort_counterexample :
    (downloadOne 1 ⟨"b.jar", false, true, [StreamOutcome.success], 5⟩).networkCalls = 1 ∧
    (runBatch 1 [⟨"a.jar", false, true, [StreamOutcome.failure], 1⟩,
                 ⟨"b.jar", false, true, [StreamOutcome.success], 5⟩]).2
      = some (1, .error ("Failed to download \"" ++ "a.jar" ++ "\", aborting")) ∧
    (1 : Nat) < 5 := by
  decide

theorem downloadOne_networkCalls (n : Int) (f : BatchFile) :
    (downloadOne n f).networkCalls = if f.serveronly || !f.hasURL then 0 else 1 := by
  unfold downloadOne
  by_cases hs : f.serveronly <;> by_cases hu : f.hasURL <;> simp [hs, hu]

/-- C6 (amended): the handler has no abort flag. Every file performs its
network call independently of the other files in the batch (one call for
each non-server-only file carrying a url, none otherwise, whatever the
other files do), and when some closure rejects (the aborting error of a
single-attempt failure, or the escaped ENOENT of a later one) the batch
surfaces the earliest rejection at the moment it happens, without
awaiting the remaining, possibly still pending, promises. -/
theorem batch_failfast_amended (n : Int) (files : List BatchFile) :
    ((runBatch n files).1.map (fun ft => ft.2.networkCalls)
      = files.map (fun f => if f.serveronly || !f.hasURL then 0 else 1)) ∧
    (∀ t e, firstRejection
        ((runBatch n files).1.map (fun ft => (ft.1.settleTime, ft.2.result)))
        = some (t, e) →
      (runBatch n files).2 = some (t, Except.error e)) := by
  constructor
  · simp [runBatch, List.map_map, Function.comp, downloadOne_networkCalls]
  · intro t e h
    simp only [runBatch] at h ⊢
    unfold promiseAll
    rw [h]

/-- Closed instantiation of the amended batch behaviour, at the default
`perFileRetries = 3`: the failing file escapes with ENOENT at time 7, the
server-only file makes no network call, and the batch rejects at time 7
with that error. -/
theorem batch_failfast_amended_witness :
    ((runBatch 3 [⟨"a.jar", false, true, [StreamOutcome.failure, StreamOutcome.failure], 7⟩,
                  ⟨"s.jar", true, true, [], 1⟩]).1.map (fun ft => ft.2.networkCalls) = [1, 0]) ∧
    (runBatch 3 [⟨"a.jar", false, true, [StreamOutcome.failure, StreamOutcome.failure], 7⟩,
                 ⟨"s.jar", true, true, [], 1⟩]).2
      = some (7, .error (ENOENT "a.jar")) := by
  refine ⟨((batch_failfast_amended 3 _).1).trans (by decide),
    (batch_failfast_amended 3 _).2 7 (ENOENT "a.jar") (by decide)⟩

/-! ## Cleanup of the staging directory (download.ts lines 294-319) -/

inductive CmdAction where
  | fetchManifest
  | downloadFile (name : String)
  | copyToDest (dest : String)
  | removeTempDir (path : String)
deriving Repr, DecidableEq

def firstErr : List (String × Except String Unit) → Option String
  | [] => none
  | (_, .error e) :: _ => some e
  | (_, .ok _) :: rest => firstErr rest

/-- The awaited effects of `process(args)` (download.ts lines 160-216):
fetch the version manifest, run the downloads, then copy the staging
directory into the final destination in non-archive mode. A failure at a
step leaves the function with that error, skipping the later steps of the
body. `manifest` is the outcome of the manifest fetch and `downloads` the
per-file outcomes of the download batch. -/
def processBody (manifest : Except String Unit)
    (downloads : List (String × Except String Unit)) (isArchive : Bool) (dest : String) :
    List CmdAction × Except String Unit :=
  match manifest with
  | .error e => ([CmdAction.fetchManifest], .error e)
  | .ok _ =>
    match firstErr downloads with
    | some e =>
      (CmdAction.fetchManifest :: downloads.map (fun d => CmdAction.downloadFile d.1), .error e)
    | none =>
      (CmdAction.fetchManifest :: downloads.map (fun d => CmdAction.downloadFile d.1)
        ++ (if isArchive then [] else [CmdAction.copyToDest dest]), .ok ())

/-- Semantics of `try ... finally`: the finalizer actions run after the
body whether the body returned or threw, and the body outcome is then
propagated. -/
def tryFinallyTrace (body : List CmdAction × Except String Unit) (fin : List CmdAction) :
    List CmdAction × Except String Unit :=
  (body.1 ++ fin, body.2)

/-- The command handler (download.ts lines 294-319):
`try { await process(args) } finally { if (args.cleanupTemp) await
removeDirectory(args.tempPath) }`. -/
def handlerRun (cleanupTemp : Bool) (tempPath : String) (manifest : Except String Unit)
    (downloads : List (String × Except String Unit)) (isArchive : Bool) (dest : String) :
    List CmdAction × Except String Unit :=
  tryFinallyTrace (processBody manifest downloads isArchive dest)
    (if cleanupTemp then [CmdAction.removeTempDir tempPath] else [])

/-- C8: for every run of the version download command, whatever the body
does (manifest fetch failure, download failures, success), with
cleanupTemp enabled the removal of the staging directory is the last
action before the command finishes, and the body outcome is still
propagated; with cleanupTemp disabled the staging directory is never
removed. -/
theorem staging_cleanup_guaranteed (tempPath dest : String)
    (manifest : Except String Unit) (downloads : List (String × Except String Unit))
    (isArchive : Bool) :
    (handlerRun true tempPath manifest downloads isArchive dest).1.getLast?
      = some (CmdAction.removeTempDir tempPath) ∧
    (handlerRun true tempPath manifest downloads isArchive dest).2
      = (processBody manifest downloads isArchive dest).2 ∧
    (∀ p, CmdAction.removeTempDir p ∉
      (handlerRun false tempPath manifest downloads isArchive dest).1) := by
  refine ⟨?_, rfl, ?_⟩
  · unfold handlerRun tryFinallyTrace
    simp only [if_true]
    exact List.getLast?_concat _
  · intro p
    unfold handlerRun tryFinallyTrace processBody
    cases manifest with
    | error e => simp
    | ok u =>
      cases hfe : firstErr downloads with
      | some e => simp
      | none => cases isArchive <;> simp

end FTB
